import Mathlib

/-!
# Verification of prime-trading-fees-go core components

Shallow embedding of the fee/settlement arithmetic, the order-book
maintenance engine and the websocket subscription signing of the
`prime-trading-fees-go` repository, together with theorems settling the
frozen claims about them.

Decimal values (`github.com/shopspring/decimal`) are embedded as `ℚ`:
a decimal is an integer coefficient scaled by a power of ten, so every
decimal denotes a rational; `Add`/`Sub`/`Mul` on decimals are exact, and
`Div` rounds the quotient half away from zero at `DivisionPrecision = 16`
decimal places, while `Round(p)` rounds half away from zero at `p` places.
Both roundings are modelled explicitly below.
-/

namespace PrimeFees

/-! ## Decimal rounding model -/

/-- Round a rational to the nearest integer with ties away from zero.
This is the rounding mode of shopspring decimal's `Round` and `DivRound`
("digit 5 rounds up, away from zero"). -/
def roundAway (x : ℚ) : ℤ :=
  if 0 ≤ x then ⌊x + 1 / 2⌋ else -⌊-x + 1 / 2⌋

/-- `decimal.Round(p)`: round to `p` decimal places, half away from zero. -/
def decRound (p : ℕ) (x : ℚ) : ℚ :=
  (roundAway (x * 10 ^ p) : ℚ) / 10 ^ p

/-- `decimal.Div`: the exact quotient rounded at `DivisionPrecision = 16`
decimal places (`Div` calls `DivRound(d2, 16)`). -/
def decDiv (a b : ℚ) : ℚ := decRound 16 (a / b)

/-! ## Fee engine (`internal/common/...` fee strategy and price adjusters)

`FeeStrategy` in the repository's `common` package is percentage based:
`Compute(qty, price) = qty*price*percent` and
`ComputeFromNotional(n) = n*percent` (both exact decimal products).
-/

/-- `common.CalculateFee`: `qty.Mul(price).Mul(feePercent)` (exact). -/
def CalculateFee (qty price feePercent : ℚ) : ℚ :=
  qty * price * feePercent

/-- `common.CalculateFeeFromNotional`: `notional.Mul(feePercent)` (exact). -/
def CalculateFeeFromNotional (notional feePercent : ℚ) : ℚ :=
  notional * feePercent

/-- `common.AdjustBidPrice`: return `price` when `qty` is zero, else
`(notional - fee).Div(qty)` where the final `Div` rounds at 16 places. -/
def AdjustBidPrice (price qty feePercent : ℚ) : ℚ :=
  if qty = 0 then price
  else decDiv (qty * price - CalculateFee qty price feePercent) qty

/-- `common.AdjustAskPrice`: return `price` when `qty` is zero, else
`(notional + fee).Div(qty)` where the final `Div` rounds at 16 places. -/
def AdjustAskPrice (price qty feePercent : ℚ) : ℚ :=
  if qty = 0 then price
  else decDiv (qty * price + CalculateFee qty price feePercent) qty

/-- `common.GetQuotePrecision`: decimal display precision per quote
currency (USD-likes 2, BTC 8, ETH 8, default 8). -/
def GetQuotePrecision (quoteCurrency : String) : ℕ :=
  if quoteCurrency = "USD" ∨ quoteCurrency = "USDC" ∨ quoteCurrency = "USDT" ∨
      quoteCurrency = "EUR" ∨ quoteCurrency = "GBP" then 2
  else if quoteCurrency = "BTC" then 8
  else if quoteCurrency = "ETH" then 8
  else 8

/-! ## Settlement engine (`internal/orders` handler, `calculateFeeSettlement`)

The Go function takes five strings and parses them with
`decimal.NewFromString`. A string argument is embedded as `Option ℚ`:
`some q` for a string that parses to the decimal value `q`, `none` for an
unparsable string. The full-rebate branch echoes the raw `markupAmount`
string into `RebateAmount`, so that output field is the `Option ℚ` the
input denoted; every other produced field is a rendered decimal, hence
`some` of its value. `feePercent` is the configured percent of the
handler's price adjuster (`FeeStrategy.ComputeFromNotional`). The fifth
parameter `primeOrderQuoteAmount` is accepted and ignored, as in the
source. -/
structure FeeSettlement where
  actualFilledValue : Option ℚ
  actualEarnedFee : Option ℚ
  rebateAmount : Option ℚ
deriving DecidableEq

/-- `calculateFeeSettlement` from the orders handler, translated branch by
branch from the source. -/
def calculateFeeSettlement (feePercent : ℚ)
    (cumQty avgPx userRequestedAmount markupAmount primeOrderQuoteAmount : Option ℚ) :
    FeeSettlement :=
  match cumQty with
  | none => ⟨some 0, some 0, markupAmount⟩
  | some cumQtyDec =>
    if cumQtyDec = 0 then ⟨some 0, some 0, markupAmount⟩
    else
      match avgPx with
      | none => ⟨some 0, some 0, markupAmount⟩
      | some avgPxDec =>
        if avgPxDec = 0 then ⟨some 0, some 0, markupAmount⟩
        else
          let actualFilledValue := cumQtyDec * avgPxDec
          match markupAmount with
          | none =>
            ⟨some (decRound 2 actualFilledValue),
             some (decRound 2 (CalculateFeeFromNotional actualFilledValue feePercent)),
             some 0⟩
          | some markupAmountDec =>
            if markupAmountDec = 0 then
              ⟨some (decRound 2 actualFilledValue),
               some (decRound 2 (CalculateFeeFromNotional actualFilledValue feePercent)),
               some 0⟩
            else
              match userRequestedAmount with
              | none =>
                ⟨some (decRound 2 actualFilledValue),
                 some (decRound 2 markupAmountDec),
                 some 0⟩
              | some userRequestedDec =>
                if userRequestedDec = 0 then
                  ⟨some (decRound 2 actualFilledValue),
                   some (decRound 2 markupAmountDec),
                   some 0⟩
                else
                  let feeRate := decDiv markupAmountDec userRequestedDec
                  let oneMinusFeeRate := 1 - feeRate
                  if oneMinusFeeRate ≤ 0 then
                    ⟨some (decRound 2 actualFilledValue),
                     some 0,
                     some (decRound 2 markupAmountDec)⟩
                  else
                    let actualUserCost := decDiv actualFilledValue oneMinusFeeRate
                    let actualEarnedFee0 := actualUserCost * feeRate
                    let actualEarnedFee :=
                      if markupAmountDec < actualEarnedFee0 then markupAmountDec
                      else actualEarnedFee0
                    let rebateAmount0 := markupAmountDec - actualEarnedFee
                    let rebateAmount := if rebateAmount0 < 0 then 0 else rebateAmount0
                    ⟨some (decRound 2 actualFilledValue),
                     some (decRound 2 actualEarnedFee),
                     some (decRound 2 rebateAmount)⟩

/-! ## Order book engine (`internal/websocket/marketdata.go`)

Decimal prices and sizes are embedded as `ℚ`. Go keys its level maps by
`side + ":" + px.String()` (parse map) and by `level.Price.String()`
(side maps); since shopspring's `String` trims trailing zeros it is a
canonical, injective rendering of the decimal's value and never contains
a colon, so the parse-map key is embedded as the pair `(side, price)` and
the side-map key as `price` itself. Go maps are embedded as association
lists with unique keys (insert-or-replace), iterated in list order; Go's
map iteration order is unspecified, and the list order is one admissible
order. -/
structure PriceLevel where
  price : ℚ
  size : ℚ
deriving DecidableEq

/-- One entry of an l2_data event's `updates` array: the raw side label
and the parsed `px` / `qty` decimals. -/
structure MDUpdate where
  side : String
  px : ℚ
  qty : ℚ
deriving DecidableEq

/-- The first three bytes of the map key `side + ":" + px.String()`, the
prefix `handleUpdate` and `buildOrderBook` compare against `"bid"`,
`"ask"` and `"off"`. A decimal rendering is a nonempty colon-free string,
so this prefix is `(side ++ ":").take 3`: for a side label of length at
least three both agree exactly, and for shorter labels both contain a
colon or (in Go) a leading digit, sign or dot at position two, so neither
can equal one of the three letter-only tags being tested. -/
def sideKey3 (side : String) : String := (side ++ ":").take 3

/-- Insert or replace the binding of key `k` in an association list,
the embedding of a Go map assignment `m[k] = v`. -/
def upsertAssoc {κ ν : Type} [DecidableEq κ] (m : List (κ × ν)) (k : κ) (v : ν) :
    List (κ × ν) :=
  match m with
  | [] => [(k, v)]
  | (k', v') :: rest =>
    if k' = k then (k, v) :: rest else (k', v') :: upsertAssoc rest k v

/-- `parseUpdates`: build the `side+":"+px ↦ PriceLevel` map from an
event's updates array, later entries overwriting earlier ones with the
same key (Go map semantics). -/
def parseUpdates (us : List MDUpdate) : List ((String × ℚ) × PriceLevel) :=
  us.foldl (fun m u => upsertAssoc m (u.side, u.px) ⟨u.px, u.qty⟩) []

/-- `sortBids`: sort levels by price, highest first (Go sorts with the
strict comparator `GreaterThan`; ties keep an unspecified order, here the
stable one). -/
def sortBids (l : List PriceLevel) : List PriceLevel :=
  l.mergeSort fun a b => decide (b.price ≤ a.price)

/-- `sortAsks`: sort levels by price, lowest first. -/
def sortAsks (l : List PriceLevel) : List PriceLevel :=
  l.mergeSort fun a b => decide (a.price ≤ b.price)

/-- `limitLevels`: truncate to `MaxLevels` entries when `MaxLevels > 0`
and the list is longer (`MaxLevels` is a Go `int`, hence `ℤ`). -/
def limitLevels (maxLevels : ℤ) (l : List PriceLevel) : List PriceLevel :=
  if 0 < maxLevels ∧ maxLevels.toNat < l.length then l.take maxLevels.toNat else l

/-- `buildOrderBook`: split a parsed level map into bid and ask slices
(zero-size levels dropped, `"off"`-prefixed side labels counted as asks),
sort both and truncate to the configured depth. -/
def buildOrderBook (maxLevels : ℤ) (m : List ((String × ℚ) × PriceLevel)) :
    List PriceLevel × List PriceLevel :=
  let bids := (m.filter fun e =>
    decide (¬ e.2.size = 0) && decide (sideKey3 e.1.1 = "bid")).map Prod.snd
  let asks := (m.filter fun e =>
    decide (¬ e.2.size = 0) &&
      (decide (sideKey3 e.1.1 = "ask") || decide (sideKey3 e.1.1 = "off"))).map Prod.snd
  (limitLevels maxLevels (sortBids bids), limitLevels maxLevels (sortAsks asks))

/-- Remove the binding of a price key, the embedding of
`delete(bidMap, priceKey)`. -/
def eraseByPrice (m : List (ℚ × PriceLevel)) (k : ℚ) : List (ℚ × PriceLevel) :=
  m.filter fun e => decide (¬ e.1 = k)

/-- Build the price-keyed side map of the current book
(`bidMap[bid.Price.String()] = bid` over the published slice). -/
def toSideMap (levels : List PriceLevel) : List (ℚ × PriceLevel) :=
  levels.foldl (fun m lvl => upsertAssoc m lvl.price lvl) []

/-- One iteration of `handleUpdate`'s merge loop: a `"bid"`-prefixed key
deletes (zero size) or upserts the bid map, an `"ask"`-prefixed key does
the same on the ask map, and any other key — `"off"` included — falls
through both branches and changes nothing. -/
def applyDeltaEntry
    (maps : List (ℚ × PriceLevel) × List (ℚ × PriceLevel))
    (e : (String × ℚ) × PriceLevel) :
    List (ℚ × PriceLevel) × List (ℚ × PriceLevel) :=
  if sideKey3 e.1.1 = "bid" then
    if e.2.size = 0 then (eraseByPrice maps.1 e.2.price, maps.2)
    else (upsertAssoc maps.1 e.2.price e.2, maps.2)
  else if sideKey3 e.1.1 = "ask" then
    if e.2.size = 0 then (maps.1, eraseByPrice maps.2 e.2.price)
    else (maps.1, upsertAssoc maps.2 e.2.price e.2)
  else maps

/-- The published order book: the sorted slices, the sequence number, and
the atomically stored best-bid/best-ask values (`nil` when the side is
empty, as after `NewOrderBook` where the atomic values are unset). -/
structure OrderBook where
  bids : List PriceLevel
  asks : List PriceLevel
  sequence : ℕ
  bestBidValue : Option PriceLevel
  bestAskValue : Option PriceLevel
deriving DecidableEq

/-- `NewOrderBook`: empty sides, no best values stored yet. -/
def newOrderBook : OrderBook := ⟨[], [], 0, none, none⟩

/-- `OrderBook.Update`, total form: the slices and sequence it assigns,
with `bestBidValue` / `bestAskValue` holding what its two stores attempt
to publish (`bids[0]` / `asks[0]`, or the nil interface on an empty
side). In Go the nil store panics instead of completing — that error
path is modelled by `OrderBook.updateChecked` below; the book-pipeline
theorems built on this total form assert only the published slices,
which Go assigns before either store runs. -/
def OrderBook.update (ob : OrderBook) (bids asks : List PriceLevel)
    (sequence : ℕ) : OrderBook :=
  { ob with
    bids := bids, asks := asks, sequence := sequence,
    bestBidValue := bids.head?, bestAskValue := asks.head? }

/-- `sync/atomic.Value.Store` of a best-value cache slot: storing a
level succeeds, while the `Store(nil)` reached on an empty side panics
with Go's `sync/atomic: store of nil value into Value`, so the
surrounding method never returns. -/
def atomicStoreLevel (v : Option PriceLevel) : Except String PriceLevel :=
  match v with
  | none => Except.error "sync/atomic: store of nil value into Value"
  | some lvl => Except.ok lvl

/-- `OrderBook.Update` with its two atomic stores modelled as fallible:
first `bids[0]`-or-nil is stored, then `asks[0]`-or-nil, and a nil store
aborts the method by panicking, so the update completes — returns `ok`
with the new published state — only when both sides are non-empty. (In
Go the slice fields are assigned before the panicking store; the aborted
intermediate state is unobservable because the panic kills the
process.) -/
def OrderBook.updateChecked (ob : OrderBook) (bids asks : List PriceLevel)
    (sequence : ℕ) : Except String OrderBook :=
  match atomicStoreLevel bids.head? with
  | Except.error e => Except.error e
  | Except.ok b =>
    match atomicStoreLevel asks.head? with
    | Except.error e => Except.error e
    | Except.ok a =>
      Except.ok { ob with
        bids := bids, asks := asks, sequence := sequence,
        bestBidValue := some b, bestAskValue := some a }

/-- `OrderBook.GetBestBid`: read the atomic best-bid value; `nil` (only
ever the initial never-stored state) yields the zero `PriceLevel` and
`false`. -/
def OrderBook.getBestBid (ob : OrderBook) : PriceLevel × Bool :=
  match ob.bestBidValue with
  | none => (⟨0, 0⟩, false)
  | some v => (v, true)

/-- `OrderBook.GetBestAsk`: read the atomic best-ask value. -/
def OrderBook.getBestAsk (ob : OrderBook) : PriceLevel × Bool :=
  match ob.bestAskValue with
  | none => (⟨0, 0⟩, false)
  | some v => (v, true)

/-- `handleSnapshot`: wholesale replace the book from the parsed levels. -/
def handleSnapshot (maxLevels : ℤ) (book : OrderBook)
    (m : List ((String × ℚ) × PriceLevel)) : OrderBook :=
  let ba := buildOrderBook maxLevels m
  book.update ba.1 ba.2 0

/-- `handleUpdate`: merge the parsed delta into price-keyed copies of the
current sides, then re-sort, truncate and publish. -/
def handleUpdate (maxLevels : ℤ) (book : OrderBook)
    (newLevels : List ((String × ℚ) × PriceLevel)) : OrderBook :=
  let maps := newLevels.foldl applyDeltaEntry (toSideMap book.bids, toSideMap book.asks)
  let bids := limitLevels maxLevels (sortBids (maps.1.map Prod.snd))
  let asks := limitLevels maxLevels (sortAsks (maps.2.map Prod.snd))
  book.update bids asks 0

/-- A snapshot event applied to a book (`handleL2Event`, snapshot arm). -/
def applySnapshotEvent (maxLevels : ℤ) (book : OrderBook)
    (us : List MDUpdate) : OrderBook :=
  handleSnapshot maxLevels book (parseUpdates us)

/-- A delta event applied to a book (`handleL2Event`, update arm). -/
def applyDeltaEvent (maxLevels : ℤ) (book : OrderBook)
    (us : List MDUpdate) : OrderBook :=
  handleUpdate maxLevels book (parseUpdates us)

/-- An initial snapshot event followed by a finite sequence of delta
events, starting from a fresh book. -/
def runEvents (maxLevels : ℤ) (snap : List MDUpdate)
    (deltas : List (List MDUpdate)) : OrderBook :=
  deltas.foldl (applyDeltaEvent maxLevels) (applySnapshotEvent maxLevels newOrderBook snap)

/-- The published-book invariant of the spec: bids strictly descending,
asks strictly ascending, no price twice on a side, and both sides within
the configured depth whenever that maximum is positive. -/
def StrictBook (maxLevels : ℤ) (ob : OrderBook) : Prop :=
  ob.bids.Pairwise (fun a b => b.price < a.price) ∧
  ob.asks.Pairwise (fun a b => a.price < b.price) ∧
  (ob.bids.map PriceLevel.price).Nodup ∧
  (ob.asks.map PriceLevel.price).Nodup ∧
  (0 < maxLevels → ob.bids.length ≤ maxLevels.toNat ∧ ob.asks.length ≤ maxLevels.toNat)

/-- Two side labels that `buildOrderBook` classifies onto the same side of
the book: both bid-prefixed, or both ask-classified (`"ask"`- or
`"off"`-prefixed). -/
def sameSideClass (s t : String) : Prop :=
  (sideKey3 s = "bid" ∧ sideKey3 t = "bid") ∨
  ((sideKey3 s = "ask" ∨ sideKey3 s = "off") ∧ (sideKey3 t = "ask" ∨ sideKey3 t = "off"))

instance (s t : String) : Decidable (sameSideClass s t) := by
  unfold sameSideClass; infer_instance

/-- Side-label discipline of a snapshot event: two updates whose labels
land on the same side of the book and that carry the same price must use
the same label (otherwise they occupy distinct keys of the parsed map and
both survive onto one side). -/
def SnapshotSideDiscipline (us : List MDUpdate) : Prop :=
  ∀ u ∈ us, ∀ v ∈ us, sameSideClass u.side v.side → u.px = v.px → u.side = v.side

instance (us : List MDUpdate) : Decidable (SnapshotSideDiscipline us) := by
  unfold SnapshotSideDiscipline; infer_instance

/-! ## Subscription signing (`internal/websocket/client.go` / `orders.go`)

`sign` in the Go client is
`base64.StdEncoding.EncodeToString(hmac(sha256, []byte(SigningKey)).Sum([]byte(message)))`.
The byte level is embedded concretely: bytes are naturals below 256,
`[]byte(s)` is UTF-8 encoding, and SHA-256, HMAC and standard base64 are
implemented from their specifications (the Go code takes them from the
standard library). -/

/-- Go `[]byte(s)`: the UTF-8 bytes of a string. -/
def utf8Bytes (s : String) : List ℕ :=
  s.toUTF8.toList.map fun b => b.toNat

/-- Truncate to a 32-bit word. -/
def w32 (x : ℕ) : ℕ := x % 2 ^ 32

/-- 32-bit rotate right. -/
def rotr32 (n x : ℕ) : ℕ := w32 ((x >>> n) ||| (x <<< (32 - n)))

/-- SHA-256 round constants. -/
def shaK : List ℕ :=
  [0x428a2f98, 0x71374491, 0xb5c0fbcf, 0xe9b5dba5, 0x3956c25b, 0x59f111f1, 0x923f82a4, 0xab1c5ed5] ++
  [0xd807aa98, 0x12835b01, 0x243185be, 0x550c7dc3, 0x72be5d74, 0x80deb1fe, 0x9bdc06a7, 0xc19bf174] ++
  [0xe49b69c1, 0xefbe4786, 0x0fc19dc6, 0x240ca1cc, 0x2de92c6f, 0x4a7484aa, 0x5cb0a9dc, 0x76f988da] ++
  [0x983e5152, 0xa831c66d, 0xb00327c8, 0xbf597fc7, 0xc6e00bf3, 0xd5a79147, 0x06ca6351, 0x14292967] ++
  [0x27b70a85, 0x2e1b2138, 0x4d2c6dfc, 0x53380d13, 0x650a7354, 0x766a0abb, 0x81c2c92e, 0x92722c85] ++
  [0xa2bfe8a1, 0xa81a664b, 0xc24b8b70, 0xc76c51a3, 0xd192e819, 0xd6990624, 0xf40e3585, 0x106aa070] ++
  [0x19a4c116, 0x1e376c08, 0x2748774c, 0x34b0bcb5, 0x391c0cb3, 0x4ed8aa4a, 0x5b9cca4f, 0x682e6ff3] ++
  [0x748f82ee, 0x78a5636f, 0x84c87814, 0x8cc70208, 0x90befffa, 0xa4506ceb, 0xbef9a3f7, 0xc67178f2]

/-- SHA-256 initial hash state. -/
def shaH0 : List ℕ :=
  [0x6a09e667, 0xbb67ae85, 0x3c6ef372, 0xa54ff53a,
   0x510e527f, 0x9b05688c, 0x1f83d9ab, 0x5be0cd19]

/-- Big-endian byte rendering of `x` on `n` bytes. -/
def beBytes (n x : ℕ) : List ℕ :=
  (List.range n).map fun i => (x >>> (8 * (n - 1 - i))) % 256

/-- SHA-256 padding: append `0x80`, zero bytes up to 56 mod 64, then the
bit length on 8 big-endian bytes. -/
def padMessage (msg : List ℕ) : List ℕ :=
  msg ++ [0x80] ++ List.replicate ((119 - msg.length % 64) % 64) 0
    ++ beBytes 8 (8 * msg.length)

/-- Combine bytes into big-endian 32-bit words. -/
def toWords : List ℕ → List ℕ
  | a :: b :: c :: d :: rest => (a * 2 ^ 24 + b * 2 ^ 16 + c * 2 ^ 8 + d) :: toWords rest
  | _ => []

def smallSigma0 (x : ℕ) : ℕ := rotr32 7 x ^^^ rotr32 18 x ^^^ (x >>> 3)

def smallSigma1 (x : ℕ) : ℕ := rotr32 17 x ^^^ rotr32 19 x ^^^ (x >>> 10)

def bigSigma0 (x : ℕ) : ℕ := rotr32 2 x ^^^ rotr32 13 x ^^^ rotr32 22 x

def bigSigma1 (x : ℕ) : ℕ := rotr32 6 x ^^^ rotr32 11 x ^^^ rotr32 25 x

/-- Extend the 16-word block schedule by `n` further words. -/
def extendSchedule : ℕ → List ℕ → List ℕ
  | 0, w => w
  | n + 1, w =>
    let i := w.length
    let wi := w32 (smallSigma1 (w.getD (i - 2) 0) + w.getD (i - 7) 0 +
      smallSigma0 (w.getD (i - 15) 0) + w.getD (i - 16) 0)
    extendSchedule n (w ++ [wi])

/-- One SHA-256 compression round on the 8-word working state, consuming
one `(k, w)` pair. -/
def compressStep (st : List ℕ) (kw : ℕ × ℕ) : List ℕ :=
  match st with
  | [a, b, c, d, e, f, g, h] =>
    let ch := (e &&& f) ^^^ ((e ^^^ 0xffffffff) &&& g)
    let t1 := w32 (h + bigSigma1 e + ch + kw.1 + kw.2)
    let maj := (a &&& b) ^^^ (a &&& c) ^^^ (b &&& c)
    let t2 := w32 (bigSigma0 a + maj)
    [w32 (t1 + t2), a, b, c, w32 (d + t1), e, f, g]
  | other => other

/-- Process one 64-byte block into the running hash state. -/
def processBlock (h : List ℕ) (block : List ℕ) : List ℕ :=
  let w := extendSchedule 48 (toWords block)
  let st := (shaK.zip w).foldl compressStep h
  List.zipWith (fun x y => w32 (x + y)) h st

/-- Split a byte list into 64-byte chunks. -/
def chunks64 (l : List ℕ) : List (List ℕ) :=
  if h : l = [] then []
  else
    have : (l.drop 64).length < l.length := by
      cases l with
      | nil => exact absurd rfl h
      | cons a t => simp [List.length_drop]; omega
    l.take 64 :: chunks64 (l.drop 64)
termination_by l.length

/-- SHA-256 of a byte list, as a 32-byte list. -/
def sha256 (msg : List ℕ) : List ℕ :=
  let final := (chunks64 (padMessage msg)).foldl processBlock shaH0
  (final.map (beBytes 4)).flatten

/-- HMAC-SHA256 (`crypto/hmac` with a SHA-256 hash): hash long keys,
zero-pad to the 64-byte block, XOR with the inner/outer pads, and hash
twice. -/
def hmacSha256 (key msg : List ℕ) : List ℕ :=
  let k0 := if 64 < key.length then sha256 key else key
  let k1 := k0 ++ List.replicate (64 - k0.length) 0
  let ipad := k1.map fun b => b ^^^ 0x36
  let opad := k1.map fun b => b ^^^ 0x5c
  sha256 (opad ++ sha256 (ipad ++ msg))

/-- The standard base64 alphabet. -/
def base64Alphabet : List Char :=
  "ABCDEFGHIJKLMNOPQRSTUVWXYZabcdefghijklmnopqrstuvwxyz0123456789+/".toList

/-- The base64 digit for a 6-bit value. -/
def base64Digit (i : ℕ) : Char := base64Alphabet.getD i 'A'

/-- Encode bytes three at a time, padding the final group with `=`. -/
def base64Groups : List ℕ → List Char
  | [] => []
  | [b0] =>
    let n := b0 * 2 ^ 16
    [base64Digit (n / 2 ^ 18), base64Digit (n / 2 ^ 12 % 64), '=', '=']
  | [b0, b1] =>
    let n := b0 * 2 ^ 16 + b1 * 2 ^ 8
    [base64Digit (n / 2 ^ 18), base64Digit (n / 2 ^ 12 % 64),
     base64Digit (n / 2 ^ 6 % 64), '=']
  | b0 :: b1 :: b2 :: rest =>
    let n := b0 * 2 ^ 16 + b1 * 2 ^ 8 + b2
    base64Digit (n / 2 ^ 18) :: base64Digit (n / 2 ^ 12 % 64) ::
      base64Digit (n / 2 ^ 6 % 64) :: base64Digit (n % 64) :: base64Groups rest

/-- `base64.StdEncoding.EncodeToString`. -/
def base64Encode (bs : List ℕ) : String := String.mk (base64Groups bs)

/-- `BaseWebSocketClient.sign`: base64 of the HMAC-SHA256 of the message
bytes under the signing-key bytes. -/
def sign (signingKey message : String) : String :=
  base64Encode (hmacSha256 (utf8Bytes signingKey) (utf8Bytes message))

/-- Configuration of the orders websocket client: the base credentials
plus the portfolio id and subscribed products. -/
structure OrdersWsConfig where
  accessKey : String
  passphrase : String
  signingKey : String
  serviceAccountId : String
  portfolioId : String
  products : List String
deriving DecidableEq

/-- `OrdersClient.GetChannelName`. -/
def ordersChannelName : String := "orders"

/-- `joinProductIds`: plain concatenation of the product identifiers
(`productIdsJoined += p` over the configured products). -/
def joinProductIds (ps : List String) : String := String.join ps

/-- `OrdersClient.BuildSignatureMessage`:
`channel + accessKey + serviceAccountId + timestamp + portfolioId + joinedProductIDs`. -/
def buildSignatureMessage (cfg : OrdersWsConfig) (timestamp : String) : String :=
  ordersChannelName ++ cfg.accessKey ++ cfg.serviceAccountId ++ timestamp ++
    cfg.portfolioId ++ joinProductIds cfg.products

/-- A JSON value of the subscription payload: a string field or the
product-ids string array. -/
inductive JsonValue where
  | str : String → JsonValue
  | arr : List String → JsonValue
deriving DecidableEq

/-- `OrdersClient.BuildSubscriptionMessage`: the base subscription fields
for the channel plus the orders-specific `portfolio_id`. The Go value is
a map; the embedding lists its key/value pairs. -/
def buildSubscriptionMessage (cfg : OrdersWsConfig) (timestamp signature : String) :
    List (String × JsonValue) :=
  [("type", .str "subscribe"),
   ("channel", .str ordersChannelName),
   ("access_key", .str cfg.accessKey),
   ("api_key_id", .str cfg.serviceAccountId),
   ("timestamp", .str timestamp),
   ("passphrase", .str cfg.passphrase),
   ("signature", .str signature),
   ("product_ids", .arr cfg.products),
   ("portfolio_id", .str cfg.portfolioId)]

/-- `BaseWebSocketClient.subscribe` for the orders channel: build the
signature message for the timestamp, sign it with the signing key, and
assemble the subscription payload around the resulting signature. -/
def subscribeMessage (cfg : OrdersWsConfig) (timestamp : String) :
    List (String × JsonValue) :=
  buildSubscriptionMessage cfg timestamp
    (sign cfg.signingKey (buildSignatureMessage cfg timestamp))

/-! ## Rounding lemmas -/

theorem roundAway_nonneg {x : ℚ} (h : 0 ≤ x) : 0 ≤ roundAway x := by
  unfold roundAway
  rw [if_pos h]
  exact Int.le_floor.mpr (by push_cast; linarith)

theorem abs_roundAway_sub (x : ℚ) : |(roundAway x : ℚ) - x| ≤ 1 / 2 := by
  unfold roundAway
  rcases le_or_lt 0 x with h | h
  · rw [if_pos h]
    have h1 : (⌊x + 1 / 2⌋ : ℚ) ≤ x + 1 / 2 := Int.floor_le _
    have h2 : x + 1 / 2 - 1 < (⌊x + 1 / 2⌋ : ℚ) := Int.sub_one_lt_floor _
    rw [abs_le]
    constructor <;> linarith
  · rw [if_neg (not_le.mpr h)]
    have h1 : (⌊-x + 1 / 2⌋ : ℚ) ≤ -x + 1 / 2 := Int.floor_le _
    have h2 : -x + 1 / 2 - 1 < (⌊-x + 1 / 2⌋ : ℚ) := Int.sub_one_lt_floor _
    rw [abs_le]
    push_cast
    constructor <;> linarith

theorem decRound_nonneg (p : ℕ) {x : ℚ} (h : 0 ≤ x) : 0 ≤ decRound p x := by
  unfold decRound
  have hp : (0 : ℚ) < 10 ^ p := by positivity
  have : (0 : ℚ) ≤ (roundAway (x * 10 ^ p) : ℚ) := by
    exact_mod_cast roundAway_nonneg (mul_nonneg h hp.le)
  positivity

theorem abs_decRound_sub (p : ℕ) (x : ℚ) :
    |decRound p x - x| ≤ 1 / (2 * 10 ^ p) := by
  unfold decRound
  have hp : (0 : ℚ) < 10 ^ p := by positivity
  have hb := abs_roundAway_sub (x * 10 ^ p)
  have heq : (roundAway (x * 10 ^ p) : ℚ) / 10 ^ p - x =
      ((roundAway (x * 10 ^ p) : ℚ) - x * 10 ^ p) / 10 ^ p := by
    field_simp
    ring
  rw [heq, abs_div, abs_of_pos hp, div_le_div_iff₀ hp (by positivity)]
  nlinarith [abs_nonneg ((roundAway (x * 10 ^ p) : ℚ) - x * 10 ^ p)]

/-! ## Claim theorems: settlement engine -/

/-- C1: for a terminal quote order whose inputs parse with positive
cumulative quantity, positive average price, positive markup held,
positive requested amount and a markup/requested fee rate below one,
the rounded settlement outputs satisfy
`actualEarnedFee + rebateAmount = markupHeld` within one cent,
`0 ≤ actualEarnedFee ≤ markupHeld` within the same tolerance, and
`rebateAmount ≥ 0`. -/
theorem calculateFeeSettlement_quote_invariant
    (feePercent cq px req mk : ℚ) (poqa : Option ℚ)
    (hcq : 0 < cq) (hpx : 0 < px) (hreq : 0 < req) (hmk : 0 < mk)
    (hrate : mk / req < 1) :
    ∃ afv e r : ℚ,
      calculateFeeSettlement feePercent (some cq) (some px) (some req) (some mk) poqa =
        ⟨some afv, some e, some r⟩ ∧
      |e + r - mk| ≤ 1 / 100 ∧ 0 ≤ e ∧ e ≤ mk + 1 / 100 ∧ 0 ≤ r := by
  have hcq0 : ¬ cq = 0 := ne_of_gt hcq
  have hpx0 : ¬ px = 0 := ne_of_gt hpx
  have hreq0 : ¬ req = 0 := ne_of_gt hreq
  have hmk0 : ¬ mk = 0 := ne_of_gt hmk
  simp only [calculateFeeSettlement, if_neg hcq0, if_neg hpx0, if_neg hmk0, if_neg hreq0]
  set feeRate := decDiv mk req with hfr
  have hfr0 : 0 ≤ feeRate := decRound_nonneg 16 (by positivity)
  by_cases homfr : 1 - feeRate ≤ 0
  · rw [if_pos homfr]
    refine ⟨decRound 2 (cq * px), 0, decRound 2 mk, rfl, ?_, le_refl 0, ?_, ?_⟩
    · have := abs_decRound_sub 2 mk
      rw [abs_le] at this ⊢
      norm_num at this ⊢
      constructor <;> linarith [this.1, this.2]
    · linarith
    · exact decRound_nonneg 2 hmk.le
  · rw [if_neg homfr]
    push_neg at homfr
    set cost := decDiv (cq * px) (1 - feeRate) with hcost
    have hcost0 : 0 ≤ cost := decRound_nonneg 16 (by positivity)
    set e0 := cost * feeRate with he0
    have he00 : 0 ≤ e0 := mul_nonneg hcost0 hfr0
    set earned := if mk < e0 then mk else e0 with hearned
    have hearned0 : 0 ≤ earned := by
      rw [hearned]; split <;> [exact hmk.le; exact he00]
    have hearnedmk : earned ≤ mk := by
      rw [hearned]; split
      · exact le_refl mk
      · next hc => exact not_lt.mp hc
    have hreb0 : ¬ mk - earned < 0 := by rw [not_lt]; linarith
    rw [if_neg hreb0]
    refine ⟨decRound 2 (cq * px), decRound 2 earned, decRound 2 (mk - earned),
      rfl, ?_, decRound_nonneg 2 hearned0, ?_, decRound_nonneg 2 (by linarith)⟩
    · have h1 := abs_decRound_sub 2 earned
      have h2 := abs_decRound_sub 2 (mk - earned)
      rw [abs_le] at h1 h2 ⊢
      norm_num at h1 h2 ⊢
      constructor <;> linarith [h1.1, h1.2, h2.1, h2.2]
    · have h1 := abs_decRound_sub 2 earned
      rw [abs_le] at h1
      norm_num at h1
      linarith [h1.2]

/-- C1 witness: the invariant at the 50 percent fill scenario inputs. -/
theorem calculateFeeSettlement_quote_invariant_witness :
    ∃ afv e r : ℚ,
      calculateFeeSettlement (5 / 1000) (some (995 / 1000000)) (some 50000)
          (some 100) (some (1 / 2)) (some (199 / 2)) =
        ⟨some afv, some e, some r⟩ ∧
      |e + r - 1 / 2| ≤ 1 / 100 ∧ 0 ≤ e ∧ e ≤ 1 / 2 + 1 / 100 ∧ 0 ≤ r :=
  calculateFeeSettlement_quote_invariant (5 / 1000) (995 / 1000000) 50000 100 (1 / 2)
    (some (199 / 2)) (by norm_num) (by norm_num) (by norm_num) (by norm_num) (by norm_num)

unseal Rat.mul Rat.inv Rat.add Rat.sub in
/-- C2: the 50 percent fill scenario: `cumQty = 0.000995`,
`avgPx = 50000`, `userRequestedAmount = 100`, `markupAmount = 0.50`
(and `primeOrderQuoteAmount = 99.50`) settles to
`actualFilledValue = 49.75`, `actualEarnedFee = 0.25`,
`rebateAmount = 0.25`. -/
theorem calculateFeeSettlement_half_fill_scenario :
    calculateFeeSettlement (5 / 1000) (some (995 / 1000000)) (some 50000)
        (some 100) (some (1 / 2)) (some (199 / 2)) =
      ⟨some (199 / 4), some (1 / 4), some (1 / 4)⟩ := by
  decide

/-- C3: when the markup held is zero or unparsable but quantity and price
parse to nonzero values, settlement uses the base-denominated add-on
model: the earned fee is the configured percent of the filled notional,
rounded, and the rebate is zero. -/
theorem calculateFeeSettlement_base_addon
    (feePercent cq px : ℚ) (req markupAmount poqa : Option ℚ)
    (hcq : cq ≠ 0) (hpx : px ≠ 0)
    (hmk : markupAmount = none ∨ markupAmount = some 0) :
    calculateFeeSettlement feePercent (some cq) (some px) req markupAmount poqa =
      ⟨some (decRound 2 (cq * px)),
       some (decRound 2 (CalculateFeeFromNotional (cq * px) feePercent)),
       some 0⟩ := by
  rcases hmk with h | h <;> subst h <;>
    simp [calculateFeeSettlement, hcq, hpx]

unseal Rat.mul Rat.inv Rat.add Rat.sub in
/-- C3 witness: `held = 0`, `cumQty = 0.001`, `avgPx = 85000` at a
0.5 percent fee yields `actualFilledValue = 85`,
`actualEarnedFee = 0.43` (0.425 rounded) and `rebateAmount = 0`. -/
theorem calculateFeeSettlement_base_addon_witness :
    calculateFeeSettlement (5 / 1000) (some (1 / 1000)) (some 85000)
        (some 100) (some 0) (some 0) =
      ⟨some 85, some (43 / 100), some 0⟩ :=
  (calculateFeeSettlement_base_addon (5 / 1000) (1 / 1000) 85000 (some 100) (some 0)
    (some 0) (by norm_num) (by norm_num) (Or.inr rfl)).trans (by decide)

/-- C4: when the cumulative quantity or the average price is zero or
unparsable, settlement reports no fill and refunds the whole held fee,
whatever the other inputs are: the result is
`{actualFilledValue: 0, actualEarnedFee: 0, rebateAmount: feeHeld}`. -/
theorem calculateFeeSettlement_no_fill_full_rebate
    (feePercent : ℚ) (cumQty avgPx req mk poqa : Option ℚ)
    (h : cumQty = none ∨ cumQty = some 0 ∨ avgPx = none ∨ avgPx = some 0) :
    calculateFeeSettlement feePercent cumQty avgPx req mk poqa =
      ⟨some 0, some 0, mk⟩ := by
  rcases h with h | h | h | h <;> subst h
  · simp [calculateFeeSettlement]
  · simp [calculateFeeSettlement]
  · cases cumQty with
    | none => simp [calculateFeeSettlement]
    | some cq =>
      by_cases hcq : cq = 0 <;> simp [calculateFeeSettlement, hcq]
  · cases cumQty with
    | none => simp [calculateFeeSettlement]
    | some cq =>
      by_cases hcq : cq = 0 <;> simp [calculateFeeSettlement, hcq]

/-- C4 witness: an unparsable cumulative quantity refunds the full held
fee of 0.05 with zero filled value and zero earned fee. -/
theorem calculateFeeSettlement_no_fill_full_rebate_witness :
    calculateFeeSettlement (5 / 1000) none (some 85000) (some 10)
        (some (1 / 20)) (some (199 / 20)) =
      ⟨some 0, some 0, some (1 / 20)⟩ :=
  calculateFeeSettlement_no_fill_full_rebate (5 / 1000) none (some 85000) (some 10)
    (some (1 / 20)) (some (199 / 20)) (Or.inl rfl)

unseal Rat.mul Rat.inv Rat.add Rat.sub in
/-- C5 counterexample: settlement outputs are rounded to two decimal
places unconditionally, not to the quote currency's display precision.
For a BTC-quoted product (`GetQuotePrecision "BTC" = 8`) with
`cumQty = 0.001` and `avgPx = 0.05` the filled value `0.00005` is
reported as `0`; rounding at the claimed 8-decimal precision would keep
it at `0.00005 ≠ 0`. -/
theorem calculateFeeSettlement_not_quote_precision_rounded :
    GetQuotePrecision "BTC" = 8 ∧
    (calculateFeeSettlement (5 / 1000) (some (1 / 1000)) (some (1 / 20))
        (some 1) (some 0) (some 0)).actualFilledValue = some 0 ∧
    decRound 8 (1 / 1000 * (1 / 20)) = 1 / 20000 ∧ (1 / 20000 : ℚ) ≠ 0 := by
  decide

/-- C5 amended: every monetary output of `calculateFeeSettlement` on a
parsed nonzero quantity and price is produced by a single final rounding
to two decimal places (USD cents), regardless of the product's quote
currency: each output is an integer number of hundredths. -/
theorem calculateFeeSettlement_cents_quantized
    (feePercent cq px : ℚ) (req mk poqa : Option ℚ)
    (hcq : cq ≠ 0) (hpx : px ≠ 0) :
    ∃ a e r : ℤ,
      calculateFeeSettlement feePercent (some cq) (some px) req mk poqa =
        ⟨some ((a : ℚ) / 100), some ((e : ℚ) / 100), some ((r : ℚ) / 100)⟩ := by
  have hq : ∀ x : ℚ, decRound 2 x = ((roundAway (x * 10 ^ 2) : ℤ) : ℚ) / 100 := by
    intro x
    unfold decRound
    norm_num
  have h0 : (0 : ℚ) = ((0 : ℤ) : ℚ) / 100 := by norm_num
  simp only [calculateFeeSettlement, if_neg hcq, if_neg hpx]
  cases mk with
  | none =>
    exact ⟨_, _, 0, by rw [hq, hq, h0]⟩
  | some mkv =>
    dsimp only
    by_cases hmk : mkv = 0
    · rw [if_pos hmk]
      exact ⟨_, _, 0, by rw [hq, hq, h0]⟩
    · rw [if_neg hmk]
      cases req with
      | none => exact ⟨_, _, 0, by rw [hq, hq, h0]⟩
      | some reqv =>
        dsimp only
        by_cases hreq : reqv = 0
        · rw [if_pos hreq]
          exact ⟨_, _, 0, by rw [hq, hq, h0]⟩
        · rw [if_neg hreq]
          by_cases homfr : 1 - decDiv mkv reqv ≤ 0
          · rw [if_pos homfr]
            exact ⟨_, 0, _, by rw [hq, hq, h0]⟩
          · rw [if_neg homfr]
            exact ⟨_, _, _, by rw [hq, hq, hq]⟩

unseal Rat.mul Rat.inv Rat.add Rat.sub in
/-- C5 amended witness: the cents quantization at the BTC-quoted inputs
of the counterexample. -/
theorem calculateFeeSettlement_cents_quantized_witness :
    ∃ a e r : ℤ,
      calculateFeeSettlement (5 / 1000) (some (1 / 1000)) (some (1 / 20))
          (some 1) (some 0) (some 0) =
        ⟨some ((a : ℚ) / 100), some ((e : ℚ) / 100), some ((r : ℚ) / 100)⟩ :=
  calculateFeeSettlement_cents_quantized (5 / 1000) (1 / 1000) (1 / 20)
    (some 1) (some 0) (some 0) (by norm_num) (by norm_num)

/-! ## Claim theorems: price adjusters -/

unseal Rat.mul Rat.inv Rat.add Rat.sub in
/-- C6 counterexample: `AdjustAskPrice` is not always at or above the
unadjusted price, even for a positive price, quantity and fee percent:
the final division rounds at 16 decimal places, so at
`price = 10⁻²⁰`, `qty = 1`, `feePercent = 1/2` the adjusted notional
`1.5·10⁻²⁰` rounds to `0`, strictly below the price. -/
theorem adjustAskPrice_below_price_counterexample :
    (0 : ℚ) < 1 ∧ (0 : ℚ) < 1 / 2 ∧
    AdjustAskPrice (1 / 10 ^ 20) 1 (1 / 2) < 1 / 10 ^ 20 := by
  decide

/-- C6 amended: for a non-negative price, positive quantity and positive
fee percent, `AdjustAskPrice` is at least the price minus half a unit in
the sixteenth decimal place (the division rounding error) and
`AdjustBidPrice` is at most the price plus the same tolerance; for zero
quantity both return the price unchanged for every price and fee
percent. -/
theorem adjustPrice_bounds (p q f : ℚ) (hp : 0 ≤ p) (hq : 0 < q) (hf : 0 < f) :
    p - 1 / (2 * 10 ^ 16) ≤ AdjustAskPrice p q f ∧
    AdjustBidPrice p q f ≤ p + 1 / (2 * 10 ^ 16) ∧
    (∀ p' f' : ℚ, AdjustAskPrice p' 0 f' = p' ∧ AdjustBidPrice p' 0 f' = p') := by
  have hq0 : ¬ q = 0 := ne_of_gt hq
  refine ⟨?_, ?_, fun p' f' => ⟨by simp [AdjustAskPrice], by simp [AdjustBidPrice]⟩⟩
  · rw [AdjustAskPrice, if_neg hq0]
    have hval : (q * p + CalculateFee q p f) / q = p * (1 + f) := by
      unfold CalculateFee
      field_simp
      ring
    unfold decDiv
    rw [hval]
    have hb := abs_decRound_sub 16 (p * (1 + f))
    rw [abs_le] at hb
    have hpf : 0 ≤ p * f := mul_nonneg hp hf.le
    nlinarith [hb.1]
  · rw [AdjustBidPrice, if_neg hq0]
    have hval : (q * p - CalculateFee q p f) / q = p * (1 - f) := by
      unfold CalculateFee
      field_simp
      ring
    unfold decDiv
    rw [hval]
    have hb := abs_decRound_sub 16 (p * (1 - f))
    rw [abs_le] at hb
    have hpf : 0 ≤ p * f := mul_nonneg hp hf.le
    nlinarith [hb.2]

/-- C6 amended witness: the bounds at `price = 50000`, `qty = 1`,
`feePercent = 0.001`. -/
theorem adjustPrice_bounds_witness :
    (50000 : ℚ) - 1 / (2 * 10 ^ 16) ≤ AdjustAskPrice 50000 1 (1 / 1000) ∧
    AdjustBidPrice 50000 1 (1 / 1000) ≤ 50000 + 1 / (2 * 10 ^ 16) ∧
    (∀ p' f' : ℚ, AdjustAskPrice p' 0 f' = p' ∧ AdjustBidPrice p' 0 f' = p') :=
  adjustPrice_bounds 50000 1 (1 / 1000) (by norm_num) (by norm_num) (by norm_num)

/-! ## Claim theorems: order book best-value cache -/

/-- C10 (code bug): the best-value cache agrees with the published book
only on the updates that complete — and an `Update` with an empty side
never completes. Its empty-side branch calls `Store(nil)`, and
`sync/atomic.Value.Store` panics on nil, although the cache fields' own
comment says they store a level or nil and the design forbids this path
from terminating the process. First conjunct: at the failing input (an
update with an empty bid side) the checked model aborts with Go's panic
message, so `GetBestBid` can never report the claimed `(zero, false)`
after an update. Second conjunct: every update that does return has both
sides non-empty, and `GetBestBid` / `GetBestAsk` then return exactly the
heads of the published slices with `true`. -/
theorem orderBook_update_best_agrees_checked :
    OrderBook.updateChecked newOrderBook [] [⟨1, 1⟩] 0 =
      Except.error "sync/atomic: store of nil value into Value" ∧
    ∀ (ob ob' : OrderBook) (bids asks : List PriceLevel) (seq : ℕ),
      ob.updateChecked bids asks seq = Except.ok ob' →
      ∃ b a, bids.head? = some b ∧ asks.head? = some a ∧
        ob'.getBestBid = (b, true) ∧ ob'.getBestAsk = (a, true) ∧
        ob'.bids = bids ∧ ob'.asks = asks := by
  constructor
  · rfl
  · intro ob ob' bids asks seq h
    cases bids with
    | nil => simp [OrderBook.updateChecked, atomicStoreLevel] at h
    | cons b bs =>
      cases asks with
      | nil => simp [OrderBook.updateChecked, atomicStoreLevel] at h
      | cons a as =>
        simp only [OrderBook.updateChecked, atomicStoreLevel, List.head?_cons,
          Except.ok.injEq] at h
        refine ⟨b, a, rfl, rfl, ?_⟩
        rw [← h]
        simp [OrderBook.getBestBid, OrderBook.getBestAsk]

/-- C10 witness: a completed update — both sides non-empty — at concrete
levels, with the returned book and the cache agreement instantiated. -/
theorem orderBook_update_best_agrees_checked_witness :
    ∃ b a, ([⟨100, 2⟩] : List PriceLevel).head? = some b ∧
      ([⟨101, 3⟩] : List PriceLevel).head? = some a ∧
      (OrderBook.mk [⟨100, 2⟩] [⟨101, 3⟩] 7 (some ⟨100, 2⟩)
        (some ⟨101, 3⟩)).getBestBid = (b, true) ∧
      (OrderBook.mk [⟨100, 2⟩] [⟨101, 3⟩] 7 (some ⟨100, 2⟩)
        (some ⟨101, 3⟩)).getBestAsk = (a, true) ∧
      (OrderBook.mk [⟨100, 2⟩] [⟨101, 3⟩] 7 (some ⟨100, 2⟩)
        (some ⟨101, 3⟩)).bids = [⟨100, 2⟩] ∧
      (OrderBook.mk [⟨100, 2⟩] [⟨101, 3⟩] 7 (some ⟨100, 2⟩)
        (some ⟨101, 3⟩)).asks = [⟨101, 3⟩] :=
  orderBook_update_best_agrees_checked.2 newOrderBook
    (OrderBook.mk [⟨100, 2⟩] [⟨101, 3⟩] 7 (some ⟨100, 2⟩) (some ⟨101, 3⟩))
    [⟨100, 2⟩] [⟨101, 3⟩] 7 rfl

/-! ## Claim theorems: subscription signing -/

/-- Unfolding of the subscribe pipeline: the transmitted payload is the
subscription message built around the signature of the signature
message. -/
theorem subscribeMessage_unfold (cfg : OrdersWsConfig) (ts : String) :
    subscribeMessage cfg ts =
      buildSubscriptionMessage cfg ts
        (base64Encode (hmacSha256 (utf8Bytes cfg.signingKey)
          (utf8Bytes ("orders" ++ cfg.accessKey ++ cfg.serviceAccountId ++ ts ++
            cfg.portfolioId ++ String.join cfg.products)))) := rfl

/-- Unfolding of the subscription payload fields. -/
theorem buildSubscriptionMessage_unfold (cfg : OrdersWsConfig) (ts sig : String) :
    buildSubscriptionMessage cfg ts sig =
      [("type", JsonValue.str "subscribe"),
       ("channel", JsonValue.str "orders"),
       ("access_key", JsonValue.str cfg.accessKey),
       ("api_key_id", JsonValue.str cfg.serviceAccountId),
       ("timestamp", JsonValue.str ts),
       ("passphrase", JsonValue.str cfg.passphrase),
       ("signature", JsonValue.str sig),
       ("product_ids", JsonValue.arr cfg.products),
       ("portfolio_id", JsonValue.str cfg.portfolioId)] := rfl

/-- C9: every (re)subscription of the orders channel transmits the base64
HMAC-SHA256, keyed by the signing key, of the UTF-8 bytes of
`channel ++ accessKey ++ serviceAccountId ++ timestamp ++ portfolioId ++
concatenated products` (portfolio id between timestamp and products), in
a payload carrying exactly the subscribe type, channel, access key,
api_key_id, timestamp, passphrase, signature, product ids and portfolio
id; the signing key reaches the payload only through the signature:
payloads for two signing keys agree outside the signature field. -/
theorem ordersSubscribeMessage_signature (cfg : OrdersWsConfig) (ts : String) :
    subscribeMessage cfg ts =
      [("type", JsonValue.str "subscribe"),
       ("channel", JsonValue.str "orders"),
       ("access_key", JsonValue.str cfg.accessKey),
       ("api_key_id", JsonValue.str cfg.serviceAccountId),
       ("timestamp", JsonValue.str ts),
       ("passphrase", JsonValue.str cfg.passphrase),
       ("signature", JsonValue.str (base64Encode (hmacSha256 (utf8Bytes cfg.signingKey)
         (utf8Bytes ("orders" ++ cfg.accessKey ++ cfg.serviceAccountId ++ ts ++
           cfg.portfolioId ++ String.join cfg.products))))),
       ("product_ids", JsonValue.arr cfg.products),
       ("portfolio_id", JsonValue.str cfg.portfolioId)] ∧
    ∀ k1 k2 : String,
      (subscribeMessage { cfg with signingKey := k1 } ts).filter
          (fun kv => kv.1 != "signature") =
        (subscribeMessage { cfg with signingKey := k2 } ts).filter
          (fun kv => kv.1 != "signature") := by
  constructor
  · exact (subscribeMessage_unfold cfg ts).trans
      (buildSubscriptionMessage_unfold cfg ts _)
  · intro k1 k2
    rw [subscribeMessage_unfold, subscribeMessage_unfold,
      buildSubscriptionMessage_unfold, buildSubscriptionMessage_unfold]
    simp [List.filter]

/-! ## Claim theorems: side-label classification -/

unseal List.merge List.mergeSort in
/-- C8 counterexample: a delta update labelled `"offer"` with size zero
does not delete the corresponding ask level (the claim says it must):
after a snapshot placing an ask at price 1, the `"offer"` zero-size delta
for price 1 leaves the ask side unchanged and non-empty, because
`handleUpdate` only matches `"bid"`- and `"ask"`-prefixed keys. -/
theorem offer_delta_ignored_counterexample :
    (applyDeltaEvent 0 (applySnapshotEvent 0 newOrderBook [⟨"ask", 1, 2⟩])
        [⟨"offer", 1, 0⟩]).asks = [⟨1, 2⟩] ∧
    ([⟨1, 2⟩] : List PriceLevel) ≠ [] := by
  constructor
  · rfl
  · decide

/-- C8 amended: an `"off"`-prefixed side label such as `"offer"` is
classified as an ask on snapshots — a snapshot consisting of such an
update rebuilds the book with that level on the ask side and an empty bid
side — while on deltas any update whose side label is neither `"bid"`-
nor `"ask"`-prefixed, `"offer"` included, is ignored: applying it leaves
the book exactly as an empty delta would. -/
theorem offer_label_classification
    (maxL : ℤ) (book : OrderBook) (side : String) (px qty : ℚ) (u : MDUpdate)
    (hside : sideKey3 side = "off") (hqty : qty ≠ 0)
    (hu1 : sideKey3 u.side ≠ "bid") (hu2 : sideKey3 u.side ≠ "ask") :
    (applySnapshotEvent maxL book [⟨side, px, qty⟩]).asks = [⟨px, qty⟩] ∧
    (applySnapshotEvent maxL book [⟨side, px, qty⟩]).bids = [] ∧
    applyDeltaEvent maxL book [u] = applyDeltaEvent maxL book [] := by
  have hnotbid : ¬ sideKey3 side = "bid" := by
    rw [hside]; decide
  refine ⟨?_, ?_, ?_⟩
  · simp [applySnapshotEvent, handleSnapshot, parseUpdates, buildOrderBook,
      upsertAssoc, OrderBook.update, List.filter, hqty, hside, hnotbid,
      sortAsks, sortBids, limitLevels]
  · simp [applySnapshotEvent, handleSnapshot, parseUpdates, buildOrderBook,
      upsertAssoc, OrderBook.update, List.filter, hqty, hside, hnotbid,
      sortAsks, sortBids, limitLevels]
  · simp [applyDeltaEvent, handleUpdate, parseUpdates, upsertAssoc,
      applyDeltaEntry, hu1, hu2]

/-- C8 amended witness: the classification at `side = "offer"`,
`px = 1`, `qty = 2`, with the ignored delta `("offer", 1, 0)` on a
one-ask book. -/
theorem offer_label_classification_witness :
    (applySnapshotEvent 0 (applySnapshotEvent 0 newOrderBook [⟨"ask", 1, 2⟩])
        [⟨"offer", 1, 2⟩]).asks = [⟨1, 2⟩] ∧
    (applySnapshotEvent 0 (applySnapshotEvent 0 newOrderBook [⟨"ask", 1, 2⟩])
        [⟨"offer", 1, 2⟩]).bids = [] ∧
    applyDeltaEvent 0 (applySnapshotEvent 0 newOrderBook [⟨"ask", 1, 2⟩])
        [⟨"offer", 1, 0⟩] =
      applyDeltaEvent 0 (applySnapshotEvent 0 newOrderBook [⟨"ask", 1, 2⟩]) [] :=
  offer_label_classification 0 (applySnapshotEvent 0 newOrderBook [⟨"ask", 1, 2⟩])
    "offer" 1 2 ⟨"offer", 1, 0⟩ (by decide) (by norm_num) (by decide) (by decide)

/-! ## Association-map lemmas -/

theorem upsertAssoc_mem {κ ν : Type} [DecidableEq κ]
    {m : List (κ × ν)} {k : κ} {v : ν} {e : κ × ν}
    (h : e ∈ upsertAssoc m k v) : e ∈ m ∨ e = (k, v) := by
  induction m with
  | nil =>
    simp only [upsertAssoc, List.mem_singleton] at h
    exact Or.inr h
  | cons hd tl ih =>
    obtain ⟨k', v'⟩ := hd
    simp only [upsertAssoc] at h
    split at h
    · rcases List.mem_cons.mp h with h | h
      · exact Or.inr h
      · exact Or.inl (List.mem_cons_of_mem _ h)
    · rcases List.mem_cons.mp h with h | h
      · exact Or.inl (h ▸ List.mem_cons_self _ _)
      · rcases ih h with h | h
        · exact Or.inl (List.mem_cons_of_mem _ h)
        · exact Or.inr h

theorem upsertAssoc_keys_mem {κ ν : Type} [DecidableEq κ]
    {m : List (κ × ν)} {k : κ} {v : ν} {k' : κ}
    (h : k' ∈ (upsertAssoc m k v).map Prod.fst) :
    k' ∈ m.map Prod.fst ∨ k' = k := by
  rcases List.mem_map.mp h with ⟨e, he, rfl⟩
  rcases upsertAssoc_mem he with h | h
  · exact Or.inl (List.mem_map_of_mem _ h)
  · exact Or.inr (by rw [h])

theorem upsertAssoc_keys_nodup {κ ν : Type} [DecidableEq κ]
    {m : List (κ × ν)} (k : κ) (v : ν)
    (h : (m.map Prod.fst).Nodup) : ((upsertAssoc m k v).map Prod.fst).Nodup := by
  induction m with
  | nil => simp [upsertAssoc]
  | cons hd tl ih =>
    obtain ⟨k', v'⟩ := hd
    simp only [List.map_cons, List.nodup_cons] at h
    simp only [upsertAssoc]
    split
    · next heq =>
      subst heq
      simp only [List.map_cons, List.nodup_cons]
      exact h
    · next hne =>
      simp only [List.map_cons, List.nodup_cons]
      refine ⟨fun hmem => ?_, ih h.2⟩
      rcases upsertAssoc_keys_mem hmem with hmem | hmem
      · exact h.1 hmem
      · exact hne hmem

theorem eraseByPrice_sublist (m : List (ℚ × PriceLevel)) (k : ℚ) :
    List.Sublist (eraseByPrice m k) m :=
  List.filter_sublist m

/-- Generic preservation through the parse-map fold: key uniqueness and a
per-entry property carried by every inserted binding. -/
theorem foldl_parse_wf (P : (String × ℚ) × PriceLevel → Prop) :
    ∀ (vs : List MDUpdate) (m : List ((String × ℚ) × PriceLevel)),
      (m.map Prod.fst).Nodup → (∀ e ∈ m, P e) →
      (∀ u ∈ vs, P ((u.side, u.px), ⟨u.px, u.qty⟩)) →
      ((vs.foldl (fun m u => upsertAssoc m (u.side, u.px) ⟨u.px, u.qty⟩) m).map
        Prod.fst).Nodup ∧
      ∀ e ∈ vs.foldl (fun m u => upsertAssoc m (u.side, u.px) ⟨u.px, u.qty⟩) m, P e
  | [], m, hk, hP, _ => ⟨hk, hP⟩
  | u :: vs, m, hk, hP, hvs => by
    simp only [List.foldl_cons]
    refine foldl_parse_wf P vs _ (upsertAssoc_keys_nodup _ _ hk) ?_
      fun w hw => hvs w (List.mem_cons_of_mem _ hw)
    intro e he
    rcases upsertAssoc_mem he with h | h
    · exact hP e h
    · rw [h]
      exact hvs u (List.mem_cons_self _ _)

/-- The parsed map of an event: unique `(side, px)` keys, each value
carrying the price of its key, and every entry originating in one of the
event's updates. -/
theorem parseUpdates_wf (us : List MDUpdate) :
    ((parseUpdates us).map Prod.fst).Nodup ∧
    ∀ e ∈ parseUpdates us,
      e.2.price = e.1.2 ∧ ∃ u ∈ us, e.1.1 = u.side ∧ e.1.2 = u.px := by
  refine foldl_parse_wf _ us [] (by simp) (by simp) ?_
  intro u hu
  exact ⟨rfl, u, hu, rfl, rfl⟩

/-- Side-map invariants through `toSideMap`: unique price keys and each
value carrying its key as price. -/
theorem toSideMap_wf (levels : List PriceLevel) :
    ((toSideMap levels).map Prod.fst).Nodup ∧
    ∀ e ∈ toSideMap levels, (e : ℚ × PriceLevel).2.price = e.1 := by
  suffices h : ∀ (ls : List PriceLevel) (m : List (ℚ × PriceLevel)),
      (m.map Prod.fst).Nodup → (∀ e ∈ m, (e : ℚ × PriceLevel).2.price = e.1) →
      ((ls.foldl (fun m lvl => upsertAssoc m lvl.price lvl) m).map Prod.fst).Nodup ∧
      ∀ e ∈ ls.foldl (fun m lvl => upsertAssoc m lvl.price lvl) m,
        (e : ℚ × PriceLevel).2.price = e.1 by
    exact h levels [] (by simp) (by simp)
  intro ls
  induction ls with
  | nil => exact fun m hk hP => ⟨hk, hP⟩
  | cons lvl ls ih =>
    intro m hk hP
    simp only [List.foldl_cons]
    refine ih _ (upsertAssoc_keys_nodup _ _ hk) ?_
    intro e he
    rcases upsertAssoc_mem he with h | h
    · exact hP e h
    · rw [h]

/-- One delta-merge step keeps both side maps well formed. -/
theorem applyDeltaEntry_wf
    (maps : List (ℚ × PriceLevel) × List (ℚ × PriceLevel))
    (e : (String × ℚ) × PriceLevel)
    (h1 : (maps.1.map Prod.fst).Nodup ∧ ∀ x ∈ maps.1, (x : ℚ × PriceLevel).2.price = x.1)
    (h2 : (maps.2.map Prod.fst).Nodup ∧ ∀ x ∈ maps.2, (x : ℚ × PriceLevel).2.price = x.1) :
    (((applyDeltaEntry maps e).1.map Prod.fst).Nodup ∧
      ∀ x ∈ (applyDeltaEntry maps e).1, (x : ℚ × PriceLevel).2.price = x.1) ∧
    (((applyDeltaEntry maps e).2.map Prod.fst).Nodup ∧
      ∀ x ∈ (applyDeltaEntry maps e).2, (x : ℚ × PriceLevel).2.price = x.1) := by
  have herase : ∀ (m : List (ℚ × PriceLevel)) (k : ℚ),
      (m.map Prod.fst).Nodup → (∀ x ∈ m, (x : ℚ × PriceLevel).2.price = x.1) →
      ((eraseByPrice m k).map Prod.fst).Nodup ∧
        ∀ x ∈ eraseByPrice m k, (x : ℚ × PriceLevel).2.price = x.1 := by
    intro m k hk hP
    exact ⟨hk.sublist ((eraseByPrice_sublist m k).map Prod.fst),
      fun x hx => hP x ((eraseByPrice_sublist m k).mem hx)⟩
  have hupsert : ∀ (m : List (ℚ × PriceLevel)),
      (m.map Prod.fst).Nodup → (∀ x ∈ m, (x : ℚ × PriceLevel).2.price = x.1) →
      ((upsertAssoc m e.2.price e.2).map Prod.fst).Nodup ∧
        ∀ x ∈ upsertAssoc m e.2.price e.2, (x : ℚ × PriceLevel).2.price = x.1 := by
    intro m hk hP
    refine ⟨upsertAssoc_keys_nodup _ _ hk, fun x hx => ?_⟩
    rcases upsertAssoc_mem hx with h | h
    · exact hP x h
    · rw [h]
  unfold applyDeltaEntry
  split
  · split
    · exact ⟨herase _ _ h1.1 h1.2, h2⟩
    · exact ⟨hupsert _ h1.1 h1.2, h2⟩
  · split
    · split
      · exact ⟨h1, herase _ _ h2.1 h2.2⟩
      · exact ⟨h1, hupsert _ h2.1 h2.2⟩
    · exact ⟨h1, h2⟩

/-- The delta-merge fold keeps both side maps well formed. -/
theorem foldl_applyDeltaEntry_wf
    (es : List ((String × ℚ) × PriceLevel)) :
    ∀ (maps : List (ℚ × PriceLevel) × List (ℚ × PriceLevel)),
      ((maps.1.map Prod.fst).Nodup ∧ ∀ x ∈ maps.1, (x : ℚ × PriceLevel).2.price = x.1) →
      ((maps.2.map Prod.fst).Nodup ∧ ∀ x ∈ maps.2, (x : ℚ × PriceLevel).2.price = x.1) →
      (((es.foldl applyDeltaEntry maps).1.map Prod.fst).Nodup ∧
        ∀ x ∈ (es.foldl applyDeltaEntry maps).1, (x : ℚ × PriceLevel).2.price = x.1) ∧
      (((es.foldl applyDeltaEntry maps).2.map Prod.fst).Nodup ∧
        ∀ x ∈ (es.foldl applyDeltaEntry maps).2, (x : ℚ × PriceLevel).2.price = x.1) := by
  induction es with
  | nil => exact fun maps h1 h2 => ⟨h1, h2⟩
  | cons e es ih =>
    intro maps h1 h2
    simp only [List.foldl_cons]
    obtain ⟨g1, g2⟩ := applyDeltaEntry_wf maps e h1 h2
    exact ih _ g1 g2

/-! ## Sorting lemmas -/

theorem sortBids_pairwise (l : List PriceLevel) :
    (sortBids l).Pairwise fun a b => b.price ≤ a.price := by
  have h := @List.sorted_mergeSort PriceLevel (fun a b => decide (b.price ≤ a.price))
    (fun a b c h1 h2 => by
      simp only [decide_eq_true_eq] at h1 h2 ⊢
      exact le_trans h2 h1)
    (fun a b => by
      simp only [Bool.or_eq_true, decide_eq_true_eq]
      exact le_total b.price a.price)
    l
  exact h.imp fun {a b} hab => of_decide_eq_true hab

theorem sortAsks_pairwise (l : List PriceLevel) :
    (sortAsks l).Pairwise fun a b => a.price ≤ b.price := by
  have h := @List.sorted_mergeSort PriceLevel (fun a b => decide (a.price ≤ b.price))
    (fun a b c h1 h2 => by
      simp only [decide_eq_true_eq] at h1 h2 ⊢
      exact le_trans h1 h2)
    (fun a b => by
      simp only [Bool.or_eq_true, decide_eq_true_eq]
      exact le_total a.price b.price)
    l
  exact h.imp fun {a b} hab => of_decide_eq_true hab

theorem sortBids_price_nodup {l : List PriceLevel}
    (h : (l.map PriceLevel.price).Nodup) :
    ((sortBids l).map PriceLevel.price).Nodup :=
  (((List.mergeSort_perm l _).map PriceLevel.price).nodup_iff).mpr h

theorem sortAsks_price_nodup {l : List PriceLevel}
    (h : (l.map PriceLevel.price).Nodup) :
    ((sortAsks l).map PriceLevel.price).Nodup :=
  (((List.mergeSort_perm l _).map PriceLevel.price).nodup_iff).mpr h

theorem limitLevels_sublist (maxLevels : ℤ) (l : List PriceLevel) :
    List.Sublist (limitLevels maxLevels l) l := by
  unfold limitLevels
  split
  · exact List.take_sublist _ _
  · exact List.Sublist.refl l

theorem limitLevels_length {maxLevels : ℤ} (h : 0 < maxLevels)
    (l : List PriceLevel) : (limitLevels maxLevels l).length ≤ maxLevels.toNat := by
  unfold limitLevels
  split
  · simpa using Nat.min_le_left _ _
  · next hc =>
    push_neg at hc
    exact hc h

/-- The common per-side publication pipeline: sorting a price-nodup level
list with either comparator and truncating yields a strictly ordered,
price-nodup, depth-capped side. -/
theorem side_pipeline_strict (maxLevels : ℤ) (l : List PriceLevel)
    (hn : (l.map PriceLevel.price).Nodup) :
    ((limitLevels maxLevels (sortBids l)).Pairwise fun a b => b.price < a.price) ∧
    (((limitLevels maxLevels (sortBids l)).map PriceLevel.price).Nodup) ∧
    ((limitLevels maxLevels (sortAsks l)).Pairwise fun a b => a.price < b.price) ∧
    (((limitLevels maxLevels (sortAsks l)).map PriceLevel.price).Nodup) ∧
    (0 < maxLevels → (limitLevels maxLevels (sortBids l)).length ≤ maxLevels.toNat ∧
      (limitLevels maxLevels (sortAsks l)).length ≤ maxLevels.toNat) := by
  have hbnd : (sortBids l).Pairwise fun a b => a.price ≠ b.price :=
    List.pairwise_map.mp (sortBids_price_nodup hn)
  have hand : (sortAsks l).Pairwise fun a b => a.price ≠ b.price :=
    List.pairwise_map.mp (sortAsks_price_nodup hn)
  have hb : (sortBids l).Pairwise fun a b => b.price < a.price :=
    ((sortBids_pairwise l).and hbnd).imp fun {a b} h =>
      h.1.lt_of_ne fun heq => h.2 heq.symm
  have ha : (sortAsks l).Pairwise fun a b => a.price < b.price :=
    ((sortAsks_pairwise l).and hand).imp fun {a b} h =>
      h.1.lt_of_ne h.2
  refine ⟨hb.sublist (limitLevels_sublist _ _),
    (sortBids_price_nodup hn).sublist ((limitLevels_sublist _ _).map PriceLevel.price),
    ha.sublist (limitLevels_sublist _ _),
    (sortAsks_price_nodup hn).sublist ((limitLevels_sublist _ _).map PriceLevel.price),
    fun hpos => ⟨limitLevels_length hpos _, limitLevels_length hpos _⟩⟩

/-- Well-formed side maps publish price-nodup level values. -/
theorem sideMap_values_price_nodup (m : List (ℚ × PriceLevel))
    (hk : (m.map Prod.fst).Nodup)
    (hv : ∀ x ∈ m, (x : ℚ × PriceLevel).2.price = x.1) :
    ((m.map Prod.snd).map PriceLevel.price).Nodup := by
  rw [List.map_map]
  have : m.map (PriceLevel.price ∘ Prod.snd) = m.map Prod.fst :=
    List.map_congr_left fun x hx => hv x hx
  rw [this]
  exact hk

/-- Every delta publication satisfies the book invariant, whatever the
previous book and whatever the parsed delta map. -/
theorem handleUpdate_strict (maxLevels : ℤ) (book : OrderBook)
    (newLevels : List ((String × ℚ) × PriceLevel)) :
    StrictBook maxLevels (handleUpdate maxLevels book newLevels) := by
  obtain ⟨hb, hv⟩ := toSideMap_wf book.bids
  obtain ⟨hb', hv'⟩ := toSideMap_wf book.asks
  obtain ⟨g1, g2⟩ := foldl_applyDeltaEntry_wf newLevels
    (toSideMap book.bids, toSideMap book.asks) ⟨hb, hv⟩ ⟨hb', hv'⟩
  have hn1 := sideMap_values_price_nodup _ g1.1 g1.2
  have hn2 := sideMap_values_price_nodup _ g2.1 g2.2
  obtain ⟨p1, p2, _, _, _⟩ := side_pipeline_strict maxLevels
    ((newLevels.foldl applyDeltaEntry (toSideMap book.bids, toSideMap book.asks)).1.map
      Prod.snd) hn1
  obtain ⟨_, _, p3, p4, _⟩ := side_pipeline_strict maxLevels
    ((newLevels.foldl applyDeltaEntry (toSideMap book.bids, toSideMap book.asks)).2.map
      Prod.snd) hn2
  refine ⟨p1, p3, p2, p4, fun hpos => ?_⟩
  exact ⟨limitLevels_length hpos _, limitLevels_length hpos _⟩

/-- Under the snapshot side-label discipline, each filtered side of the
parsed snapshot map has no duplicate price. -/
theorem snapshot_side_price_nodup (us : List MDUpdate)
    (H : SnapshotSideDiscipline us) (p : (String × ℚ) × PriceLevel → Bool)
    (hp : ∀ e e' : (String × ℚ) × PriceLevel,
      p e = true → p e' = true → sameSideClass e.1.1 e'.1.1) :
    ((((parseUpdates us).filter p).map Prod.snd).map PriceLevel.price).Nodup := by
  obtain ⟨hk, hP⟩ := parseUpdates_wf us
  have hkeys : (parseUpdates us).Pairwise fun e1 e2 => e1.1 ≠ e2.1 :=
    List.pairwise_map.mp hk
  have hfil : ((parseUpdates us).filter p).Pairwise fun e1 e2 => e1.1 ≠ e2.1 :=
    hkeys.sublist (List.filter_sublist _)
  have hpx : ((parseUpdates us).filter p).Pairwise fun e1 e2 => e1.1.2 ≠ e2.1.2 := by
    refine hfil.imp_of_mem ?_
    intro e1 e2 h1 h2 hne heq
    obtain ⟨he1, hp1⟩ := List.mem_filter.mp h1
    obtain ⟨he2, hp2⟩ := List.mem_filter.mp h2
    obtain ⟨-, u, hu, hus, hupx⟩ := hP e1 he1
    obtain ⟨-, v, hv, hvs, hvpx⟩ := hP e2 he2
    have hclass : sameSideClass u.side v.side := by
      rw [← hus, ← hvs]
      exact hp e1 e2 hp1 hp2
    have hpxeq : u.px = v.px := by
      rw [← hupx, ← hvpx, heq]
    have hside := H u hu v hv hclass hpxeq
    apply hne
    have h1' : e1.1 = (u.side, u.px) := Prod.ext hus hupx
    have h2' : e2.1 = (v.side, v.px) := Prod.ext hvs hvpx
    rw [h1', h2', hside, hpxeq]
  rw [List.map_map]
  have hcong : ((parseUpdates us).filter p).map (PriceLevel.price ∘ Prod.snd) =
      ((parseUpdates us).filter p).map fun e => e.1.2 :=
    List.map_congr_left fun e he => (hP e (List.mem_of_mem_filter he)).1
  rw [hcong]
  exact List.pairwise_map.mpr hpx

/-- Under the discipline hypothesis a snapshot publication satisfies the
book invariant. -/
theorem applySnapshotEvent_strict (maxLevels : ℤ) (book : OrderBook)
    (us : List MDUpdate) (H : SnapshotSideDiscipline us) :
    StrictBook maxLevels (applySnapshotEvent maxLevels book us) := by
  have hnb := snapshot_side_price_nodup us H
    (fun e => decide (¬ e.2.size = 0) && decide (sideKey3 e.1.1 = "bid"))
    (fun e e' h h' => by
      simp only [Bool.and_eq_true, decide_eq_true_eq] at h h'
      exact Or.inl ⟨h.2, h'.2⟩)
  have hna := snapshot_side_price_nodup us H
    (fun e => decide (¬ e.2.size = 0) &&
      (decide (sideKey3 e.1.1 = "ask") || decide (sideKey3 e.1.1 = "off")))
    (fun e e' h h' => by
      simp only [Bool.and_eq_true, Bool.or_eq_true, decide_eq_true_eq] at h h'
      exact Or.inr ⟨h.2, h'.2⟩)
  obtain ⟨p1, p2, _, _, _⟩ := side_pipeline_strict maxLevels _ hnb
  obtain ⟨_, _, p3, p4, _⟩ := side_pipeline_strict maxLevels _ hna
  exact ⟨p1, p3, p2, p4, fun hpos =>
    ⟨limitLevels_length hpos _, limitLevels_length hpos _⟩⟩

/-! ## Claim theorems: book invariant -/

unseal List.merge List.mergeSort in
/-- C7 counterexample: the invariant does not hold for every snapshot
event: a snapshot carrying the same price once under the `"ask"` label
and once under the `"offer"` label keeps both entries (they occupy
distinct parse-map keys but land on the same side), so the published ask
side lists price 1 twice and is not strictly ascending. -/
theorem snapshot_duplicate_ask_price_counterexample :
    (runEvents 0 [⟨"ask", 1, 1⟩, ⟨"offer", 1, 2⟩] []).asks.map PriceLevel.price =
      [1, 1] ∧
    ¬ ([1, 1] : List ℚ).Nodup := by
  constructor
  · rfl
  · decide

/-- C7 amended: for every initial snapshot whose updates obey the
side-label discipline — no price carried by two different labels that
classify onto the same side — followed by any finite sequence of delta
events, the published book has strictly descending bid prices, strictly
ascending ask prices, no duplicate price on either side, and both sides
within the configured maximum depth whenever that maximum is positive. -/
theorem runEvents_book_invariant (maxLevels : ℤ) (snap : List MDUpdate)
    (deltas : List (List MDUpdate)) (H : SnapshotSideDiscipline snap) :
    StrictBook maxLevels (runEvents maxLevels snap deltas) := by
  unfold runEvents
  have hfold : ∀ (ds : List (List MDUpdate)) (b : OrderBook),
      StrictBook maxLevels b →
      StrictBook maxLevels (ds.foldl (applyDeltaEvent maxLevels) b) := by
    intro ds
    induction ds with
    | nil => exact fun b hb => hb
    | cons d ds ih =>
      intro b _
      simp only [List.foldl_cons]
      exact ih _ (handleUpdate_strict maxLevels b (parseUpdates d))
  exact hfold deltas _ (applySnapshotEvent_strict maxLevels newOrderBook snap H)

/-- C7 amended witness: the invariant at a concrete disciplined snapshot
followed by two deltas, with a depth cap of two. -/
theorem runEvents_book_invariant_witness :
    StrictBook 2 (runEvents 2
      [⟨"bid", 2, 1⟩, ⟨"ask", 3, 1⟩, ⟨"offer", 4, 2⟩, ⟨"bid", 1, 5⟩]
      [[⟨"bid", 5, 1⟩], [⟨"ask", 3, 0⟩]]) :=
  runEvents_book_invariant 2
    [⟨"bid", 2, 1⟩, ⟨"ask", 3, 1⟩, ⟨"offer", 4, 2⟩, ⟨"bid", 1, 5⟩]
    [[⟨"bid", 5, 1⟩], [⟨"ask", 3, 0⟩]] (by decide)

end PrimeFees
